import Mathlib

/-!
Verification of the penrose `helpers.rs` core: the keycode-table builder
(`keycodes_from_xmodmap`), the key-binding pattern parser
(`parse_key_binding`), and the two window-property resolvers (`str_prop`,
`atom_prop`).

Text is modelled as `List Char` (Rust `&str` / `String`), byte buffers as
`List Nat` (each entry one byte), and 32-bit quantities as `Nat`.  Process
aborts (the `die!` macro and `unwrap` panics) are modelled by the `Died`
result type.  Calls into the X server go through an explicit `Connection`
record of reply functions, and each resolver also returns the list of
requests it issued, so that theorems can speak about which requests were
(or were not) sent.
-/

instance {ε α : Type} [DecidableEq ε] [DecidableEq α] :
    DecidableEq (Except ε α) := fun a b =>
  match a, b with
  | .error e, .error f =>
    if h : e = f then .isTrue (by rw [h])
    else .isFalse (fun hc => h (Except.error.inj hc))
  | .ok x, .ok y =>
    if h : x = y then .isTrue (by rw [h])
    else .isFalse (fun hc => h (Except.ok.inj hc))
  | .error _, .ok _ => .isFalse (fun hc => Except.noConfusion hc)
  | .ok _, .error _ => .isFalse (fun hc => Except.noConfusion hc)

/-- A computation that either produces a value or aborts the process
(`die!` / `panic`), carrying the diagnostic message. -/
inductive Died (α : Type) where
  | ok (a : α)
  | died (msg : List Char)
deriving DecidableEq, Repr

/-- Split a character list at every character satisfying `p`, keeping empty
chunks — the semantics of Rust `str::split` for a single-char pattern. -/
def splitAny (p : Char → Bool) : List Char → List (List Char)
  | [] => [[]]
  | c :: rest =>
    if p c then [] :: splitAny p rest
    else
      match splitAny p rest with
      | s :: ss => (c :: s) :: ss
      | [] => [[c]]

/-- Rust `s.split("-")`. -/
def splitDash (s : List Char) : List (List Char) :=
  splitAny (fun c => c == '-') s

/-- Rust `str::split_whitespace`: split on whitespace runs, no empty
chunks. -/
def splitWs (s : List Char) : List (List Char) :=
  (splitAny (fun c => c.isWhitespace) s).filter (fun w => !w.isEmpty)

/-- Remove one trailing carriage return, if present. -/
def stripCR (l : List Char) : List Char :=
  match l.getLast? with
  | some '\r' => l.dropLast
  | _ => l

/-- Rust `str::lines`: split on `'\n'`; a final empty chunk (text ending in
a newline) produces no line; every newline-terminated line loses one
trailing `'\r'`. -/
def rustLines (s : List Char) : List (List Char) :=
  let parts := splitAny (fun c => c == '\n') s
  match parts.getLast? with
  | some [] => parts.dropLast.map stripCR
  | _ => parts.dropLast.map stripCR ++ [parts.getLastD []]

/-- Rust `str::parse::<u8>()`: an optional leading `'+'`, then one or more
decimal digits, value below 256. -/
def parseU8 (s : List Char) : Option Nat :=
  let t := match s with
    | '+' :: rest => rest
    | _ => s
  if t.isEmpty then none
  else if t.all (fun c => c.isDigit) then
    let n := t.foldl (fun acc c => acc * 10 + (c.toNat - 48)) 0
    if n < 256 then some n else none
  else none

/-- Decimal digits of a natural number (structural fuel keeps it
kernel-reducible); used only to render ids inside error messages. -/
def natCharsAux : Nat → Nat → List Char → List Char
  | 0, _, acc => acc
  | fuel + 1, n, acc =>
    if n = 0 then acc
    else natCharsAux fuel (n / 10) (Char.ofNat (48 + n % 10) :: acc)

/-- Rust `format!("{}", n)` for an unsigned integer. -/
def natChars (n : Nat) : List Char :=
  if n = 0 then ['0'] else natCharsAux (n + 1) n []

/-- One step of UTF-8 decoding: fuel-indexed so the kernel can evaluate it;
`fuel ≥ length` always suffices since every step consumes at least one
byte.  Mirrors Rust `String::from_utf8`: rejects stray continuation bytes,
overlong encodings, surrogates and values beyond U+10FFFF. -/
def utf8DecodeF : Nat → List Nat → Option (List Char)
  | _, [] => some []
  | 0, _ :: _ => none
  | fuel + 1, b :: rest =>
    if b < 128 then
      (utf8DecodeF fuel rest).map (fun cs => Char.ofNat b :: cs)
    else if b < 194 then none
    else if b < 224 then
      match rest with
      | b1 :: rest1 =>
        if 128 ≤ b1 ∧ b1 < 192 then
          (utf8DecodeF fuel rest1).map
            (fun cs => Char.ofNat ((b - 192) * 64 + (b1 - 128)) :: cs)
        else none
      | [] => none
    else if b < 240 then
      match rest with
      | b1 :: b2 :: rest2 =>
        if (128 ≤ b1 ∧ b1 < 192) ∧ (128 ≤ b2 ∧ b2 < 192) then
          let c := (b - 224) * 4096 + (b1 - 128) * 64 + (b2 - 128)
          if c < 2048 then none
          else if 55296 ≤ c ∧ c < 57344 then none
          else (utf8DecodeF fuel rest2).map (fun cs => Char.ofNat c :: cs)
        else none
      | _ => none
    else if b < 245 then
      match rest with
      | b1 :: b2 :: b3 :: rest3 =>
        if (128 ≤ b1 ∧ b1 < 192) ∧ (128 ≤ b2 ∧ b2 < 192) ∧
            (128 ≤ b3 ∧ b3 < 192) then
          let c := (b - 240) * 262144 + (b1 - 128) * 4096 +
            (b2 - 128) * 64 + (b3 - 128)
          if c < 65536 then none
          else if c > 1114111 then none
          else (utf8DecodeF fuel rest3).map (fun cs => Char.ofNat c :: cs)
        else none
      | _ => none
    else none

/-- Rust `String::from_utf8` on a byte buffer: `some` of the decoded text
when the bytes are valid UTF-8, `none` otherwise. -/
def utf8Decode (bytes : List Nat) : Option (List Char) :=
  utf8DecodeF bytes.length bytes

/-- The UTF-8 bytes of an ASCII string, for building concrete inputs. -/
def strBytes (s : String) : List Nat :=
  s.toList.map Char.toNat

/-- Group a byte buffer into little-endian 32-bit words, the view the xcb
crate gives of a `GetProperty` reply payload when read as `&[u32]`;
incomplete trailing bytes yield no word. -/
def leWords : List Nat → List Nat
  | b0 :: b1 :: b2 :: b3 :: rest =>
    (b0 + 256 * b1 + 65536 * b2 + 16777216 * b3) :: leWords rest
  | _ => []

/-- A symbolic key name (Rust `String` key of the `CodeMap`). -/
abbrev KeyName := List Char

/-- `CodeMap = HashMap<String, u8>`, modelled as the insertion sequence;
`cmGet` realises the overwrite-on-collision lookup. -/
abbrev CodeMap := List (KeyName × Nat)

/-- Lookup in a `CodeMap`: the value of the LAST inserted pair with the
given key — exactly the observable behaviour of collecting the pair
sequence into a `HashMap` (later inserts overwrite) and calling `get`. -/
def cmGet : CodeMap → KeyName → Option Nat
  | [], _ => none
  | (k, v) :: rest, key =>
    match cmGet rest key with
    | some r => some r
    | none => if k = key then some v else none

/-!
## Keycode table builder (`keycodes_from_xmodmap`)

Source shape, per line of `xmodmap -pke` output:
```
let mut words = l.split_whitespace();          // keycode <code> = <names ...>
let key_code: u8 = words.nth(1).unwrap().parse().unwrap();
words.skip(1).map(move |name| (name.into(), key_code))
```
`nth(1)` consumes tokens 0 and 1 and yields token 1; `skip(1)` then skips
token 2 (the `=`), so the names are the tokens from index 3 on.  Each
`unwrap` panics (process abort) on a malformed line.
-/

/-- All whitespace-separated tokens from index 3 on: the symbolic names a
keymap line assigns to its keycode. -/
def lineNames (l : List Char) : List KeyName :=
  (splitWs l).drop 3

/-- The keycode parsed from token 1 of the line (0 when malformed; only
quoted under `wfLine`). -/
def lineCode (l : List Char) : Nat :=
  match (splitWs l).get? 1 with
  | some w => (parseU8 w).getD 0
  | none => 0

/-- A keymap line the builder accepts without panicking: it has a second
token and that token parses as a `u8`. -/
def wfLine (l : List Char) : Bool :=
  match (splitWs l).get? 1 with
  | some w => (parseU8 w).isSome
  | none => false

/-- The `(name, code)` pairs one keymap line contributes. -/
def linePairs (l : List Char) : List (KeyName × Nat) :=
  (lineNames l).map (fun n => (n, lineCode l))

/-- Process one keymap line: `words.nth(1).unwrap().parse().unwrap()` then
one pair per remaining name.  Both `unwrap`s abort the process. -/
def processLine (l : List Char) : Died (List (KeyName × Nat)) :=
  let words := splitWs l
  match words.get? 1 with
  | none => .died ("called Option::unwrap() on a None value".toList)
  | some w =>
    match parseU8 w with
    | none => .died ("called Result::unwrap() on an Err value: ParseIntError".toList)
    | some code => .ok ((words.drop 3).map (fun n => (n, code)))

/-- `flat_map` over the lines followed by `collect::<CodeMap>()`; the first
panic aborts the whole construction. -/
def keycodesFromLines : List (List Char) → Died CodeMap
  | [] => .ok []
  | l :: ls =>
    match processLine l with
    | .died m => .died m
    | .ok ps =>
      match keycodesFromLines ls with
      | .died m => .died m
      | .ok rest => .ok (ps ++ rest)

/-- `keycodes_from_xmodmap`, as a function of the result of spawning
`xmodmap -pke` (`.error e` = spawn failure, `.ok bytes` = captured stdout).
`die!` aborts the process with the given message; `String::from_utf8` is
modelled by `utf8Decode`. -/
def keycodes_from_xmodmap (spawnResult : Except (List Char) (List Nat)) :
    Died CodeMap :=
  match spawnResult with
  | .error e => .died ("unable to fetch keycodes via xmodmap: ".toList ++ e)
  | .ok bytes =>
    match utf8Decode bytes with
    | none => .died ("invalid utf8 from xmodmap: ".toList)
    | some s => keycodesFromLines (rustLines s)

/-!
## Binding pattern parser (`parse_key_binding`)
-/

/-- `xcb::MOD_MASK_SHIFT`. -/
def MOD_MASK_SHIFT : Nat := 1
/-- `xcb::MOD_MASK_CONTROL`. -/
def MOD_MASK_CONTROL : Nat := 4
/-- `xcb::MOD_MASK_1` (Alt). -/
def MOD_MASK_1 : Nat := 8
/-- `xcb::MOD_MASK_4` (Super). -/
def MOD_MASK_4 : Nat := 64

/-- A `u16`/`u8` modifier-mask / keycode pair (`data_types::KeyCode`). -/
structure KeyCode where
  mask : Nat
  code : Nat
deriving DecidableEq, Repr

/-- The match arm of `parse_key_binding` on one modifier token:
`A`/`M`/`S`/`C` map to their xcb mask bits, anything else hits
`die!("invalid key binding prefix: {}", s)`. -/
def modMaskBit (s : KeyName) : Died Nat :=
  if s = ['A'] then .ok MOD_MASK_1
  else if s = ['M'] then .ok MOD_MASK_4
  else if s = ['S'] then .ok MOD_MASK_SHIFT
  else if s = ['C'] then .ok MOD_MASK_CONTROL
  else .died ("invalid key binding prefix: ".toList ++ s)

/-- `parts.iter().map(modMaskBit).fold(0, |acc, v| acc | v)`: the fold
evaluates the mapped tokens left to right, so the first unrecognized token
aborts. -/
def foldMask : List KeyName → Nat → Died Nat
  | [], acc => .ok acc
  | p :: ps, acc =>
    match modMaskBit p with
    | .died m => .died m
    | .ok v => foldMask ps (acc ||| v)

/-- `parse_key_binding`: split on `-`, pop the last segment as the key
name, look it up; on a hit fold the remaining segments into a mask (`as
u16` truncates) and return the `KeyCode`; on a miss return `None`. -/
def parse_key_binding (pattern : List Char) (known_codes : CodeMap) :
    Died (Option KeyCode) :=
  let parts := splitDash pattern
  match cmGet known_codes (parts.getLastD []) with
  | some code =>
    match foldMask parts.dropLast 0 with
    | .died m => .died m
    | .ok mask => .ok (some ⟨mask % 65536, code⟩)
  | none => .ok none

/-- The key-name segment of a pattern (last dash-separated chunk). -/
def keyNameOf (pattern : List Char) : KeyName :=
  (splitDash pattern).getLastD []

/-- The modifier segments of a pattern (all chunks before the last). -/
def modsOf (pattern : List Char) : List KeyName :=
  (splitDash pattern).dropLast

/-- The recognized modifier tokens. -/
def validMods : List KeyName := [['A'], ['M'], ['S'], ['C']]

/-- The mask bit a recognized modifier token denotes. -/
def bitOf (s : KeyName) : Nat :=
  if s = ['A'] then MOD_MASK_1
  else if s = ['M'] then MOD_MASK_4
  else if s = ['S'] then MOD_MASK_SHIFT
  else if s = ['C'] then MOD_MASK_CONTROL
  else 0

/-- Bitwise OR of the bits of a token list (the specification's mask). -/
def maskBits (ps : List KeyName) : Nat :=
  ps.foldl (fun acc p => acc ||| bitOf p) 0

/-!
## Property resolvers (`str_prop`, `atom_prop`)

The xcb calls become explicit request records; a `Connection` is the pair
of server reply functions.  Each resolver returns its result together with
the list of requests it issued, in order, so theorems can state which
round trips happened.
-/

/-- `xcb::ATOM_ANY` ("any type"). -/
def ATOM_ANY : Nat := 0

/-- The arguments of `xcb::intern_atom(conn, only_if_exists, name)`. -/
structure InternAtomRequest where
  only_if_exists : Bool
  name : List Char
deriving DecidableEq, Repr

/-- The arguments of `xcb::get_property(conn, delete, window, property,
type, long_offset, long_length)`. -/
structure GetPropertyRequest where
  delete : Bool
  window : Nat
  property : Nat
  type : Nat
  long_offset : Nat
  long_length : Nat
deriving DecidableEq, Repr

/-- A `GetProperty` reply.  `value_len` is the server's
`reply.value_len()` — the count of *format units* (bytes for a format-8
property, 16-bit units for format 16, 32-bit words for format 32) — while
`value` is the raw byte payload; `reply.value::<T>()` in the xcb crate is
a slice over those bytes of length `bytes / size_of::<T>()`, independent
of `value_len`. -/
structure PropReply where
  value_len : Nat
  value : List Nat
deriving DecidableEq, Repr

/-- A request issued over the connection. -/
inductive XRequest where
  | internAtom (r : InternAtomRequest)
  | getProperty (r : GetPropertyRequest)
deriving DecidableEq, Repr

/-- An open X connection, as the server's reply behaviour:
`get_reply()` on an `intern_atom` cookie yields an atom id or an error,
and on a `get_property` cookie yields a payload or an error. -/
structure Connection where
  internAtom : InternAtomRequest → Except (List Char) Nat
  getProperty : GetPropertyRequest → Except (List Char) PropReply

/-- `str_prop`: intern the atom with `only_if_exists = false`
(create-if-absent), fetch the property with `delete = false`, type any,
offset 0, at most 1024 32-bit words, and decode the payload as UTF-8.
Returns the result and the requests issued. -/
def str_prop (conn : Connection) (id : Nat) (name : List Char) :
    Except (List Char) (List Char) × List XRequest :=
  let ireq : InternAtomRequest := ⟨false, name⟩
  match conn.internAtom ireq with
  | .error e =>
    (.error ("unable to fetch xcb atom '".toList ++ name ++ "': ".toList ++ e),
     [.internAtom ireq])
  | .ok atom =>
    let preq : GetPropertyRequest := ⟨false, id, atom, ATOM_ANY, 0, 1024⟩
    match conn.getProperty preq with
    | .error e =>
      (.error ("unable to fetch window property: ".toList ++ e),
       [.internAtom ireq, .getProperty preq])
    | .ok reply =>
      match utf8Decode reply.value with
      | none =>
        (.error ("invalid utf8 resonse from xcb: ".toList),
         [.internAtom ireq, .getProperty preq])
      | some s => (.ok s, [.internAtom ireq, .getProperty preq])

/-- `atom_prop`: intern the atom with `only_if_exists = true` (lookup
only), fetch the property with `delete = false`, type any, offset 0, at
most 1024 32-bit words; check `reply.value_len() <= 0` (format units!)
and then index `reply.value::<u32>()[0]` — a slice of `bytes / 4` words.
When the reply passes the guard but carries no complete 32-bit word
(1–3-byte payload of a non-format-32 property), that indexing is out of
bounds and the process panics; the whole result is therefore wrapped in
`Died`.  Returns the result and the requests issued. -/
def atom_prop (conn : Connection) (id : Nat) (name : List Char) :
    Died (Except (List Char) Nat) × List XRequest :=
  let ireq : InternAtomRequest := ⟨true, name⟩
  match conn.internAtom ireq with
  | .error e =>
    (.ok (.error ("unable to fetch xcb atom '".toList ++ name ++ "': ".toList ++
      e)),
     [.internAtom ireq])
  | .ok atom =>
    let preq : GetPropertyRequest := ⟨false, id, atom, ATOM_ANY, 0, 1024⟩
    match conn.getProperty preq with
    | .error e =>
      (.ok (.error ("unable to fetch window property: ".toList ++ e)),
       [.internAtom ireq, .getProperty preq])
    | .ok reply =>
      if reply.value_len ≤ 0 then
        (.ok (.error ("property '".toList ++ name ++
          "' was empty for id: ".toList ++ natChars id)),
         [.internAtom ireq, .getProperty preq])
      else
        match leWords reply.value with
        | [] =>
          (.died ("index out of bounds: the len is 0 but the index is 0".toList),
           [.internAtom ireq, .getProperty preq])
        | w :: _ => (.ok (.ok w), [.internAtom ireq, .getProperty preq])

/-- Modelled from the spec: the X server's `InternAtom` behaviour over an
atom table (name/id pairs).  A known name resolves to its id; in
lookup-only mode (`only_if_exists = true`) an unknown name fails atom
resolution, while in create-if-absent mode it is assigned the fresh id.
(The server itself is not part of the repository; this realises the
spec's "the integer variant requests lookup-only (must not create the
atom if it does not already exist)".) -/
def internOnServer (atoms : List (List Char × Nat)) (freshId : Nat)
    (req : InternAtomRequest) : Except (List Char) Nat :=
  match cmGet atoms req.name with
  | some a => .ok a
  | none =>
    if req.only_if_exists then .error ("no such atom".toList)
    else .ok freshId

/-- Modelled from the spec: the X server's `GetProperty` reply for a
window whose queried property stores `payload` bytes — it returns the
bytes from `4 * long_offset` on, truncated to `4 * long_length` bytes
(the requested number of 32-bit words), never an error for an oversized
payload; the reply reports `value_len` in format units of a format-32
property (one unit per complete 32-bit word returned).  Atom resolution
always succeeds with `atomId`. -/
def connWithProp (atomId : Nat) (payload : List Nat) : Connection :=
  ⟨fun _ => .ok atomId,
   fun req =>
     let bytes := (payload.drop (4 * req.long_offset)).take (4 * req.long_length)
     .ok ⟨bytes.length / 4, bytes⟩⟩

/-- Does a request carry `delete = true`?  (`XRequest.internAtom` never
deletes anything.) -/
def reqNoDelete : XRequest → Bool
  | .internAtom _ => true
  | .getProperty r => !r.delete

/-- Is the request a property fetch? -/
def isGetProp : XRequest → Bool
  | .internAtom _ => false
  | .getProperty _ => true

/-- A property fetch with the parameters the source hard-codes: type
"any", offset 0, 1024 32-bit words. -/
def fetchBounded : XRequest → Bool
  | .internAtom _ => true
  | .getProperty r =>
    r.type == ATOM_ANY && r.long_offset == 0 && r.long_length == 1024

/-!
## Lemmas about the binding parser
-/

theorem parse_key_binding_eq (pattern : List Char) (t : CodeMap) :
    parse_key_binding pattern t =
      match cmGet t (keyNameOf pattern) with
      | some code =>
        match foldMask (modsOf pattern) 0 with
        | .died m => .died m
        | .ok mask => .ok (some ⟨mask % 65536, code⟩)
      | none => .ok none := rfl

theorem modMaskBit_valid {p : KeyName} (h : p ∈ validMods) :
    modMaskBit p = .ok (bitOf p) := by
  simp only [validMods, List.mem_cons, List.not_mem_nil, or_false] at h
  rcases h with h | h | h | h <;> subst h <;> decide

theorem modMaskBit_invalid {p : KeyName} (h : p ∉ validMods) :
    modMaskBit p = .died ("invalid key binding prefix: ".toList ++ p) := by
  unfold modMaskBit
  split_ifs with h1 h2 h3 h4
  · exact absurd (by simp [validMods, h1]) h
  · exact absurd (by simp [validMods, h2]) h
  · exact absurd (by simp [validMods, h3]) h
  · exact absurd (by simp [validMods, h4]) h
  · rfl

theorem foldMask_ok {ps : List KeyName} (h : ∀ p ∈ ps, p ∈ validMods)
    (acc : Nat) :
    foldMask ps acc = .ok (ps.foldl (fun a p => a ||| bitOf p) acc) := by
  induction ps generalizing acc with
  | nil => rfl
  | cons p ps ih =>
    have hp : p ∈ validMods := h p (List.mem_cons_self p ps)
    simp only [foldMask, modMaskBit_valid hp, List.foldl_cons]
    exact ih (fun q hq => h q (List.mem_cons_of_mem _ hq)) (acc ||| bitOf p)

theorem foldMask_died {ps : List KeyName} (h : ∃ p ∈ ps, p ∉ validMods)
    (acc : Nat) : ∃ m, foldMask ps acc = .died m := by
  induction ps generalizing acc with
  | nil => obtain ⟨p, hp, _⟩ := h; exact absurd hp (List.not_mem_nil p)
  | cons q ps ih =>
    obtain ⟨p, hp, hbad⟩ := h
    by_cases hq : q ∈ validMods
    · have hps : p ∈ ps := by
        rcases List.mem_cons.mp hp with h1 | h1
        · exact absurd (h1 ▸ hq) hbad
        · exact h1
      simp only [foldMask, modMaskBit_valid hq]
      exact ih ⟨p, hps, hbad⟩ (acc ||| bitOf q)
    · exact ⟨"invalid key binding prefix: ".toList ++ q,
        by simp only [foldMask, modMaskBit_invalid hq]⟩

theorem foldl_or_init (ps : List KeyName) (a : Nat) :
    ps.foldl (fun acc p => acc ||| bitOf p) a = a ||| maskBits ps := by
  induction ps generalizing a with
  | nil => simp [maskBits]
  | cons p ps ih =>
    simp only [maskBits, List.foldl_cons]
    rw [ih (a ||| bitOf p), ih (0 ||| bitOf p), Nat.zero_or, Nat.or_assoc]

theorem maskBits_cons (p : KeyName) (ps : List KeyName) :
    maskBits (p :: ps) = bitOf p ||| maskBits ps := by
  simp only [maskBits, List.foldl_cons]
  rw [foldl_or_init, Nat.zero_or]
  rfl

theorem bitOf_lt (p : KeyName) : bitOf p < 65536 := by
  unfold bitOf
  split_ifs <;> decide

theorem maskBits_lt (ps : List KeyName) : maskBits ps < 65536 := by
  induction ps with
  | nil => decide
  | cons p ps ih =>
    rw [maskBits_cons]
    have h16 : (65536 : Nat) = 2 ^ 16 := by norm_num
    rw [h16] at ih ⊢
    exact Nat.or_lt_two_pow (h16 ▸ bitOf_lt p) ih

theorem maskBits_perm {ps qs : List KeyName} (h : ps.Perm qs) :
    maskBits ps = maskBits qs := by
  induction h with
  | nil => rfl
  | cons x _ ih => rw [maskBits_cons, maskBits_cons, ih]
  | swap x y l =>
    rw [maskBits_cons, maskBits_cons, maskBits_cons, maskBits_cons,
      ← Nat.or_assoc, ← Nat.or_assoc, Nat.or_comm (bitOf y) (bitOf x)]
  | trans _ _ ih1 ih2 => rw [ih1, ih2]

theorem parse_key_binding_found (table : CodeMap) (pattern : List Char)
    (code : Nat) (hc : cmGet table (keyNameOf pattern) = some code)
    (hp : ∀ p ∈ modsOf pattern, p ∈ validMods) :
    parse_key_binding pattern table =
      .ok (some ⟨maskBits (modsOf pattern), code⟩) := by
  rw [parse_key_binding_eq, hc, foldMask_ok hp 0, foldl_or_init, Nat.zero_or]
  simp [Nat.mod_eq_of_lt (maskBits_lt (modsOf pattern))]

theorem parse_key_binding_not_found (table : CodeMap) (pattern : List Char)
    (h : cmGet table (keyNameOf pattern) = none) :
    parse_key_binding pattern table = .ok none := by
  rw [parse_key_binding_eq, h]

/-- C1: whenever the final dash-separated segment of a pattern is a key
name the table knows and every preceding segment is a recognized modifier
token, `parse_key_binding` returns `some` of that name's keycode paired
with the bitwise OR of the tokens' mask bits (A = Alt, M = Super,
S = Shift, C = Control); the mask is invariant under reordering of the
modifier tokens, a pattern without modifier tokens gets mask 0,
`parse("M-j")` with `"j" ↦ 44` yields (Super bit, 44), and
`parse("M-S-Return")` agrees with `parse("S-M-Return")` on any table that
knows `"Return"`. -/
theorem parse_key_binding_valid_mods (table : CodeMap) (pattern : List Char)
    (code : Nat) (hc : cmGet table (keyNameOf pattern) = some code)
    (hp : ∀ p ∈ modsOf pattern, p ∈ validMods) :
    parse_key_binding pattern table =
      .ok (some ⟨maskBits (modsOf pattern), code⟩) ∧
    (∀ qs : List KeyName, (modsOf pattern).Perm qs →
      maskBits (modsOf pattern) = maskBits qs) ∧
    (modsOf pattern = [] →
      parse_key_binding pattern table = .ok (some ⟨0, code⟩)) ∧
    parse_key_binding "M-j".toList [("j".toList, 44)] =
      .ok (some ⟨MOD_MASK_4, 44⟩) ∧
    (∀ (t : CodeMap) (c2 : Nat), cmGet t "Return".toList = some c2 →
      parse_key_binding "M-S-Return".toList t =
        parse_key_binding "S-M-Return".toList t) := by
  refine ⟨parse_key_binding_found table pattern code hc hp,
    fun qs h => maskBits_perm h, ?_, by decide, ?_⟩
  · intro h0
    rw [parse_key_binding_found table pattern code hc hp, h0]
    rfl
  · intro t c2 hret
    have e1 : keyNameOf "M-S-Return".toList = "Return".toList := by decide
    have e2 : keyNameOf "S-M-Return".toList = "Return".toList := by decide
    rw [parse_key_binding_found t ("M-S-Return".toList) c2 (by rw [e1]; exact hret)
        (by decide),
      parse_key_binding_found t ("S-M-Return".toList) c2 (by rw [e2]; exact hret)
        (by decide),
      show maskBits (modsOf "M-S-Return".toList) =
        maskBits (modsOf "S-M-Return".toList) by decide]

/-- Witness for C1: pattern "M-j" against the table {"j" ↦ 44}. -/
theorem parse_key_binding_valid_mods_w :
    parse_key_binding "M-j".toList [("j".toList, 44)] =
      .ok (some ⟨MOD_MASK_4, 44⟩) :=
  (parse_key_binding_valid_mods [("j".toList, 44)] ("M-j".toList) 44
    (by decide) (by decide)).2.2.2.1

/-- C3: whenever the final dash-separated segment of a pattern is absent
from the table (an empty final segment included), `parse_key_binding`
returns `None` — a plain "no binding" result, not an error and not an
abort. -/
theorem parse_key_binding_unknown_key (table : CodeMap) (pattern : List Char)
    (h : cmGet table (keyNameOf pattern) = none) :
    parse_key_binding pattern table = .ok none :=
  parse_key_binding_not_found table pattern h

/-- Witness for C3: an unknown key name and an empty final segment, both
against the table {"j" ↦ 44}. -/
theorem parse_key_binding_unknown_key_w :
    parse_key_binding "M-nonexistent_key".toList [("j".toList, 44)] =
      .ok none ∧
    parse_key_binding "M-".toList [("j".toList, 44)] = .ok none :=
  ⟨parse_key_binding_unknown_key [("j".toList, 44)] ("M-nonexistent_key".toList)
      (by decide),
   parse_key_binding_unknown_key [("j".toList, 44)] ("M-".toList) (by decide)⟩

/-- C4: when the key name is found but some modifier token is outside
{A, M, S, C}, `parse_key_binding` aborts the process (`die!`); and the
fatal branch is only reachable when the key name is found, because an
absent key name returns `None` before any modifier token is examined. -/
theorem parse_key_binding_bad_mod_fatal (table : CodeMap) (pattern : List Char)
    (code : Nat) (hc : cmGet table (keyNameOf pattern) = some code)
    (hbad : ∃ p ∈ modsOf pattern, p ∉ validMods) :
    (∃ m, parse_key_binding pattern table = .died m) ∧
    (∀ (t : CodeMap) (q : List Char), cmGet t (keyNameOf q) = none →
      parse_key_binding q t = .ok none) := by
  constructor
  · obtain ⟨m, hm⟩ := foldMask_died hbad 0
    exact ⟨m, by rw [parse_key_binding_eq, hc, hm]⟩
  · exact fun t q h => parse_key_binding_not_found t q h

/-- Witness for C4: pattern "Q-j" against the table {"j" ↦ 44} aborts;
the same table with an unknown key name returns `None` even alongside the
same bad modifier. -/
theorem parse_key_binding_bad_mod_fatal_w :
    (∃ m, parse_key_binding "Q-j".toList [("j".toList, 44)] = .died m) ∧
    parse_key_binding "Q-nope".toList [("j".toList, 44)] = .ok none := by
  have h := parse_key_binding_bad_mod_fatal [("j".toList, 44)] ("Q-j".toList) 44
    (by decide) ⟨['Q'], by decide, by decide⟩
  exact ⟨h.1, h.2 [("j".toList, 44)] ("Q-nope".toList) (by decide)⟩

/-!
## Lemmas about the keycode table builder
-/

theorem processLine_wf {l : List Char} (h : wfLine l = true) :
    processLine l = .ok (linePairs l) := by
  unfold wfLine at h
  cases hw : (splitWs l).get? 1 with
  | none => simp only [hw] at h; exact Bool.noConfusion h
  | some w =>
    simp only [hw] at h
    cases hp : parseU8 w with
    | none => simp only [hp, Option.isSome_none] at h; exact Bool.noConfusion h
    | some c =>
      simp only [processLine, linePairs, lineNames, lineCode, hw, hp,
        Option.getD_some]

theorem processLine_bad {l : List Char} (h : wfLine l = false) :
    ∃ m, processLine l = .died m := by
  unfold wfLine at h
  cases hw : (splitWs l).get? 1 with
  | none =>
    exact ⟨"called Option::unwrap() on a None value".toList,
      by simp only [processLine, hw]⟩
  | some w =>
    simp only [hw] at h
    cases hp : parseU8 w with
    | none =>
      exact ⟨"called Result::unwrap() on an Err value: ParseIntError".toList,
        by simp only [processLine, hw, hp]⟩
    | some c => simp only [hp, Option.isSome_some] at h; exact Bool.noConfusion h

theorem keycodesFromLines_wf {ls : List (List Char)}
    (h : ∀ l ∈ ls, wfLine l = true) :
    keycodesFromLines ls = .ok ((ls.map linePairs).flatten) := by
  induction ls with
  | nil => rfl
  | cons l ls ih =>
    rw [keycodesFromLines, processLine_wf (h l (List.mem_cons_self l ls)),
      ih (fun x hx => h x (List.mem_cons_of_mem _ hx))]
    simp

theorem keycodesFromLines_bad {ls : List (List Char)}
    (h : ∃ l ∈ ls, wfLine l = false) :
    ∃ m, keycodesFromLines ls = .died m := by
  induction ls with
  | nil => obtain ⟨l, hl, _⟩ := h; cases hl
  | cons x ls ih =>
    obtain ⟨l, hl, hbad⟩ := h
    by_cases hx : wfLine x = true
    · have hls : l ∈ ls := by
        rcases List.mem_cons.mp hl with h1 | h1
        · subst h1; rw [hx] at hbad; cases hbad
        · exact h1
      obtain ⟨m, hm⟩ := ih ⟨l, hls, hbad⟩
      exact ⟨m, by rw [keycodesFromLines, processLine_wf hx, hm]⟩
    · obtain ⟨m, hm⟩ := processLine_bad (Bool.not_eq_true _ ▸ hx)
      exact ⟨m, by rw [keycodesFromLines, hm]⟩

theorem cmGet_append_right (a b : CodeMap) (k : KeyName) (v : Nat)
    (h : cmGet b k = some v) : cmGet (a ++ b) k = some v := by
  induction a with
  | nil => simpa using h
  | cons p a ih =>
    obtain ⟨pk, pv⟩ := p
    simp only [List.cons_append, cmGet, List.append_eq, ih]

theorem cmGet_append_left (a b : CodeMap) (k : KeyName)
    (h : cmGet b k = none) : cmGet (a ++ b) k = cmGet a k := by
  induction a with
  | nil => simpa using h
  | cons p a ih =>
    obtain ⟨pk, pv⟩ := p
    simp only [List.cons_append, cmGet, List.append_eq, ih]

theorem cmGet_pairs_not_mem {ns : List KeyName} {c : Nat} {k : KeyName}
    (h : k ∉ ns) : cmGet (ns.map (fun n => (n, c))) k = none := by
  induction ns with
  | nil => rfl
  | cons n ns ih =>
    have hk : k ∉ ns := fun hx => h (List.mem_cons_of_mem _ hx)
    have hne : n ≠ k := fun hx => h (hx ▸ List.mem_cons_self n ns)
    simp only [List.map_cons, cmGet, ih hk, if_neg hne]

theorem cmGet_pairs_mem {ns : List KeyName} {c : Nat} {k : KeyName}
    (h : k ∈ ns) : cmGet (ns.map (fun n => (n, c))) k = some c := by
  induction ns with
  | nil => cases h
  | cons n ns ih =>
    by_cases hk : k ∈ ns
    · simp only [List.map_cons, cmGet, ih hk]
    · have hnk : n = k := by
        rcases List.mem_cons.mp h with h1 | h1
        · exact h1.symm
        · exact absurd h1 hk
      simp only [List.map_cons, cmGet, cmGet_pairs_not_mem hk, if_pos hnk]

theorem cmGet_flatten_none {ls : List (List Char)} {k : KeyName}
    (h : ∀ l ∈ ls, k ∉ lineNames l) :
    cmGet ((ls.map linePairs).flatten) k = none := by
  induction ls with
  | nil => rfl
  | cons l ls ih =>
    simp only [List.map_cons, List.flatten_cons]
    rw [cmGet_append_left _ _ _ (ih (fun x hx => h x (List.mem_cons_of_mem _ hx)))]
    exact cmGet_pairs_not_mem (h l (List.mem_cons_self l ls))

/-- C2: for a keymap dump every line of which matches
`keycode <uint8> = <names ...>`, the built table maps each listed name to
the keycode of its line; when a name is listed on two lines, the table
holds the keycode of the later line (last-write-wins).  Stated for the
line `l` holding `name`'s last occurrence: no line after `l` lists
`name`. -/
theorem xmodmap_table_last_write_wins (bytes : List Nat) (s : List Char)
    (pre post : List (List Char)) (l : List Char) (name : KeyName)
    (hdec : utf8Decode bytes = some s)
    (hsplit : rustLines s = pre ++ l :: post)
    (hwf : ∀ x ∈ pre ++ l :: post, wfLine x = true)
    (hmem : name ∈ lineNames l)
    (hlater : ∀ x ∈ post, name ∉ lineNames x) :
    ∃ m, keycodes_from_xmodmap (.ok bytes) = .ok m ∧
      cmGet m name = some (lineCode l) := by
  refine ⟨((pre ++ l :: post).map linePairs).flatten, ?_, ?_⟩
  · simp only [keycodes_from_xmodmap, hdec, hsplit]
    exact keycodesFromLines_wf hwf
  · rw [List.map_append, List.flatten_append, List.map_cons, List.flatten_cons]
    have hl : cmGet (linePairs l) name = some (lineCode l) := cmGet_pairs_mem hmem
    have hmid : cmGet (linePairs l ++ (post.map linePairs).flatten) name =
        some (lineCode l) := by
      rw [cmGet_append_left _ _ _ (cmGet_flatten_none hlater)]
      exact hl
    exact cmGet_append_right _ _ _ _ hmid

/-- Witness for C2: the dump "keycode 10 = a b\nkeycode 11 = b" maps "b"
to 11, the keycode of the later of the two lines listing it. -/
theorem xmodmap_table_last_write_wins_w :
    ∃ m, keycodes_from_xmodmap
        (.ok (strBytes "keycode 10 = a b\nkeycode 11 = b")) = .ok m ∧
      cmGet m ['b'] = some 11 := by
  have h := xmodmap_table_last_write_wins
    (strBytes "keycode 10 = a b\nkeycode 11 = b")
    ("keycode 10 = a b\nkeycode 11 = b".toList)
    ["keycode 10 = a b".toList] [] ("keycode 11 = b".toList) ['b']
    (by decide) (by decide) (by decide) (by decide) (by decide)
  rwa [show lineCode "keycode 11 = b".toList = 11 by decide] at h

/-- C9: the keycode-table builder is fail-fast: a spawn failure of the
keymap-dump command aborts with the spawn error, non-UTF-8 command output
aborts, and any line without a second whitespace token or whose second
token does not parse as a `u8` aborts — no line is skipped and no result
table is produced in any of these cases. -/
theorem xmodmap_failures_fatal :
    (∀ e, keycodes_from_xmodmap (.error e) =
      .died ("unable to fetch keycodes via xmodmap: ".toList ++ e)) ∧
    (∀ bytes, utf8Decode bytes = none →
      keycodes_from_xmodmap (.ok bytes) =
        .died ("invalid utf8 from xmodmap: ".toList)) ∧
    (∀ bytes s, utf8Decode bytes = some s →
      (∃ l ∈ rustLines s, wfLine l = false) →
      ∃ m, keycodes_from_xmodmap (.ok bytes) = .died m) := by
  refine ⟨fun e => rfl, fun bytes h => by simp [keycodes_from_xmodmap, h], ?_⟩
  intro bytes s hdec hbad
  simp only [keycodes_from_xmodmap, hdec]
  exact keycodesFromLines_bad hbad

/-- Witness for C9: the byte 0xFF is not UTF-8 and aborts; the dump line
"keycode abc = j" has a non-numeric keycode token and aborts. -/
theorem xmodmap_failures_fatal_w :
    keycodes_from_xmodmap (.ok [255]) =
      .died ("invalid utf8 from xmodmap: ".toList) ∧
    (∃ m, keycodes_from_xmodmap (.ok (strBytes "keycode abc = j")) =
      .died m) :=
  ⟨xmodmap_failures_fatal.2.1 [255] (by decide),
   xmodmap_failures_fatal.2.2 (strBytes "keycode abc = j")
     ("keycode abc = j".toList) (by decide)
     ⟨"keycode abc = j".toList, by decide, by decide⟩⟩

/-!
## Claims about the property resolvers
-/

/-- C10: neither resolver ever deletes the queried property — every
`GetProperty` request either function issues carries `delete = false`, so
resolution leaves the window's property data on the server unchanged. -/
theorem prop_fetch_never_deletes (conn : Connection) (id : Nat)
    (name : List Char) :
    ((str_prop conn id name).2.all reqNoDelete) = true ∧
    ((atom_prop conn id name).2.all reqNoDelete) = true := by
  constructor
  · simp only [str_prop]
    cases h1 : conn.internAtom ⟨false, name⟩ with
    | error e => simp [h1, reqNoDelete]
    | ok atom =>
      cases h2 : conn.getProperty ⟨false, id, atom, ATOM_ANY, 0, 1024⟩ with
      | error e => simp [h1, h2, reqNoDelete]
      | ok r => cases h3 : utf8Decode r.value <;> simp [h1, h2, h3, reqNoDelete]
  · simp only [atom_prop]
    cases h1 : conn.internAtom ⟨true, name⟩ with
    | error e => simp [h1, reqNoDelete]
    | ok atom =>
      cases h2 : conn.getProperty ⟨false, id, atom, ATOM_ANY, 0, 1024⟩ with
      | error e => simp [h1, h2, reqNoDelete]
      | ok r =>
        simp only [h1, h2]
        split <;> cases hw : leWords r.value <;> simp [hw, reqNoDelete]

/-- C8: both resolvers issue their property fetch with type "any", offset
0 and a fixed bound of 1024 32-bit words; a stored payload larger than
that bound is truncated to it by the fetch, not rejected — the resolvers
behave exactly as they do on the truncated payload. -/
theorem prop_fetch_bounded_truncation :
    (∀ (conn : Connection) (id : Nat) (name : List Char),
      ((str_prop conn id name).2.all fetchBounded) = true ∧
      ((atom_prop conn id name).2.all fetchBounded) = true) ∧
    (∀ (a id : Nat) (name : List Char) (payload : List Nat),
      payload.length > 4096 →
      str_prop (connWithProp a payload) id name =
        str_prop (connWithProp a (payload.take 4096)) id name ∧
      atom_prop (connWithProp a payload) id name =
        atom_prop (connWithProp a (payload.take 4096)) id name) := by
  constructor
  · intro conn id name
    constructor
    · simp only [str_prop]
      cases h1 : conn.internAtom ⟨false, name⟩ with
      | error e => simp [h1, fetchBounded]
      | ok atom =>
        cases h2 : conn.getProperty ⟨false, id, atom, ATOM_ANY, 0, 1024⟩ with
        | error e => simp [h1, h2, fetchBounded]
        | ok r =>
          cases h3 : utf8Decode r.value <;> simp [h1, h2, h3, fetchBounded]
    · simp only [atom_prop]
      cases h1 : conn.internAtom ⟨true, name⟩ with
      | error e => simp [h1, fetchBounded]
      | ok atom =>
        cases h2 : conn.getProperty ⟨false, id, atom, ATOM_ANY, 0, 1024⟩ with
        | error e => simp [h1, h2, fetchBounded]
        | ok r =>
          simp only [h1, h2]
          split <;> cases hw : leWords r.value <;> simp [hw, fetchBounded]
  · intro a id name payload _
    constructor
    · simp [str_prop, connWithProp, List.take_take]
    · simp [atom_prop, connWithProp, List.take_take]

/-- Witness for C8: a concrete fetch carries the fixed parameters, and a
4097-byte payload resolves identically to its 4096-byte truncation. -/
theorem prop_fetch_bounded_truncation_w :
    ((str_prop (connWithProp 5 [1, 2, 3, 4]) 3 ['X']).2.all fetchBounded) =
      true ∧
    atom_prop (connWithProp 5 (List.replicate 4097 0)) 3 ['X'] =
      atom_prop (connWithProp 5 ((List.replicate 4097 0).take 4096)) 3 ['X'] :=
  ⟨(prop_fetch_bounded_truncation.1 (connWithProp 5 [1, 2, 3, 4]) 3 ['X']).1,
   (prop_fetch_bounded_truncation.2 5 3 ['X'] (List.replicate 4097 0)
     (by rw [List.length_replicate]; norm_num)).2⟩

set_option maxRecDepth 8192 in
/-- C5: `atom_prop` interns its atom in lookup-only mode
(`only_if_exists = true`) while `str_prop` requests creation-if-absent
(`only_if_exists = false`); against a server whose atom table does not
know the name, the lookup-only path fails with the atom-resolution error
and issues no property fetch at all. -/
theorem atom_lookup_only_no_fetch :
    (∀ (conn : Connection) (id : Nat) (name : List Char),
      (atom_prop conn id name).2.head? = some (.internAtom ⟨true, name⟩) ∧
      (str_prop conn id name).2.head? = some (.internAtom ⟨false, name⟩)) ∧
    (∀ (atoms : List (List Char × Nat)) (freshId : Nat)
      (fetch : GetPropertyRequest → Except (List Char) PropReply)
      (id : Nat) (name : List Char),
      cmGet atoms name = none →
      (∃ e, (atom_prop ⟨internOnServer atoms freshId, fetch⟩ id name).1 =
        .ok (.error ("unable to fetch xcb atom '".toList ++ name ++
          "': ".toList ++ e))) ∧
      ((atom_prop ⟨internOnServer atoms freshId, fetch⟩ id name).2.all
        (fun r => !isGetProp r)) = true) := by
  constructor
  · intro conn id name
    constructor
    · simp only [atom_prop]
      cases h1 : conn.internAtom ⟨true, name⟩ with
      | error e => simp
      | ok atom =>
        cases h2 : conn.getProperty ⟨false, id, atom, ATOM_ANY, 0, 1024⟩ with
        | error e => simp [h1, h2]
        | ok r =>
          simp only [h1, h2]
          split <;> cases hw : leWords r.value <;> simp [hw]
    · simp only [str_prop]
      cases h1 : conn.internAtom ⟨false, name⟩ with
      | error e => simp
      | ok atom =>
        cases h2 : conn.getProperty ⟨false, id, atom, ATOM_ANY, 0, 1024⟩ with
        | error e => simp [h1, h2]
        | ok r => cases h3 : utf8Decode r.value <;> simp [h1, h2, h3]
  · intro atoms freshId fetch id name h
    have hi : internOnServer atoms freshId ⟨true, name⟩ =
        .error ("no such atom".toList) := by
      simp [internOnServer, h]
    refine ⟨⟨"no such atom".toList, ?_⟩, ?_⟩
    · simp [atom_prop, hi]
    · simp [atom_prop, hi, isGetProp]

/-- Witness for C5: a server knowing only atom "A"; looking up property
"B" through `atom_prop` fails atom resolution and issues no fetch. -/
theorem atom_lookup_only_no_fetch_w :
    (∃ e, (atom_prop ⟨internOnServer [(['A'], 1)] 9, fun _ => .ok ⟨0, []⟩⟩ 3
      ['B']).1 =
      .ok (.error ("unable to fetch xcb atom '".toList ++ ['B'] ++
        "': ".toList ++ e))) ∧
    ((atom_prop ⟨internOnServer [(['A'], 1)] 9, fun _ => .ok ⟨0, []⟩⟩ 3
      ['B']).2.all (fun r => !isGetProp r)) = true :=
  atom_lookup_only_no_fetch.2 [(['A'], 1)] 9 (fun _ => .ok ⟨0, []⟩) 3 ['B']
    (by decide)

/-- C6 (code bug): at a successful fetch whose reply reports a positive
`value_len` (two format-8 units) while its two-byte payload holds no
complete 32-bit word, `atom_prop` passes the `value_len() <= 0` guard and
panics indexing `value::<u32>()[0]` on an empty word slice — a process
abort, not the empty-result error the claim (and the spec's no-panic tier
for runtime property errors) promises.  The guard checks format units
where the indexed slice counts 32-bit words, so the claimed empty-result
error is unreachable for 1–3-byte payloads. -/
theorem atom_prop_short_payload_panic :
    (atom_prop ⟨fun _ => .ok 7, fun _ => .ok ⟨2, [5, 0]⟩⟩ 3 ['X']).1 =
      .died ("index out of bounds: the len is 0 but the index is 0".toList) ∧
    (atom_prop ⟨fun _ => .ok 7, fun _ => .ok ⟨2, [5, 0]⟩⟩ 3 ['X']).1 ≠
      .ok (.error ("property '".toList ++ ['X'] ++
        "' was empty for id: ".toList ++ natChars 3)) := by
  decide

/-- C7: on a successful fetch, `str_prop` returns the UTF-8 decoding of
the raw payload when it is valid UTF-8 (an empty payload giving the empty
text), and a decode error when it is not — never a coerced default. -/
theorem str_prop_utf8_decode (conn : Connection) (id : Nat) (name : List Char)
    (atomId : Nat) (reply : PropReply)
    (hi : conn.internAtom ⟨false, name⟩ = .ok atomId)
    (hf : conn.getProperty ⟨false, id, atomId, ATOM_ANY, 0, 1024⟩ = .ok reply) :
    (∀ s, utf8Decode reply.value = some s → (str_prop conn id name).1 = .ok s) ∧
    (utf8Decode reply.value = none →
      (str_prop conn id name).1 =
        .error ("invalid utf8 resonse from xcb: ".toList)) ∧
    (reply.value = [] → (str_prop conn id name).1 = .ok []) := by
  refine ⟨?_, ?_, ?_⟩
  · intro s hs
    simp [str_prop, hi, hf, hs]
  · intro h0
    simp [str_prop, hi, hf, h0]
  · intro h0
    simp [str_prop, hi, hf, h0, utf8Decode, utf8DecodeF]

/-- Witness for C7: the payload "hello" reads back as exactly "hello",
the invalid byte 0xFF is a decode error, and an empty payload is the
empty text. -/
theorem str_prop_utf8_decode_w :
    (str_prop (connWithProp 7 (strBytes "hello")) 3 ['X']).1 =
      .ok "hello".toList ∧
    (str_prop (connWithProp 7 [255]) 3 ['X']).1 =
      .error ("invalid utf8 resonse from xcb: ".toList) ∧
    (str_prop (connWithProp 7 []) 3 ['X']).1 = .ok [] :=
  ⟨(str_prop_utf8_decode (connWithProp 7 (strBytes "hello")) 3 ['X'] 7
      ⟨1, strBytes "hello"⟩ rfl (by decide)).1 "hello".toList (by decide),
   (str_prop_utf8_decode (connWithProp 7 [255]) 3 ['X'] 7 ⟨0, [255]⟩ rfl
      (by decide)).2.1 (by decide),
   (str_prop_utf8_decode (connWithProp 7 []) 3 ['X'] 7 ⟨0, []⟩ rfl
      (by decide)).2.2 rfl⟩
